import Mathlib

/-!
Shallow embedding of the earthquake-forecasting pipeline of `src/api.py`
(region canonicalization, daily alignment, horizon extension, lag/rolling
feature engineering, forecast assembly and windowing), together with
theorems settling the specification claims about it.

Modelling conventions:
* calendar days are absolute day indices (`ℕ`); `today` is the run date
  (`datetime.now().date()` in the source);
* numeric event fields (`mag`, `depth`, `latitude`, `longitude`) are `ℚ`;
* an absent cell (pandas `NaN`) is `none : Option ℚ`;
* a pandas frame indexed by a dense daily `date_range` is represented per
  region by the day interval together with one column list per field, a
  position `p` in a column corresponding to day `start + p`;
* the rolling standard deviation columns are represented by their squares
  (the rolling sample variance, pandas `ddof = 1`): the standard deviation
  is irrational-valued, and every claim about the std columns (presence,
  absence, equality of runs) is equivalent to the same claim about the
  variance columns, since `std = sqrt ∘ var` cellwise;
* the calendar columns `day`, `dayofweek`, `dayofyear` are pure functions
  of a row's date and are subsumed by keeping the date itself in each row;
  no claim constrains their values.
-/

/-! ### Region canonicalizer (`api.py` lines 79-81 and 130-132)

`df.place.str.split(", ", expand=True)[1]` splits a place string on every
occurrence of the two-character delimiter `", "` and takes column 1, i.e.
the second field of the split.  `splitCS` is that splitter on the string's
character list. -/

/-- Split a character list on each occurrence of the delimiter `", "`,
exactly as `str.split(", ")` does. -/
def splitCS : List Char → List (List Char)
  | [] => [[]]
  | [c] => [[c]]
  | c :: c2 :: rest =>
    if c = ',' && c2 = ' ' then [] :: splitCS rest
    else
      match splitCS (c2 :: rest) with
      | [] => [[c]]
      | t :: ts => (c :: t) :: ts

/-- Whether the delimiter `", "` occurs somewhere in a character list. -/
def containsDelim : List Char → Bool
  | [] => false
  | [_] => false
  | c :: c2 :: rest => (c = ',' && c2 = ' ') || containsDelim (c2 :: rest)

/-- The alias table `{"CA": "California", "B.C.": "Baja California"}`
applied by `df.region.replace` (exact full-cell values). -/
def aliasOf (r : String) : String :=
  if r = "CA" then "California" else if r = "B.C." then "Baja California" else r

/-- Region canonicalization of one raw `place` string:
column 1 of `place.str.split(", ", expand=True)` (the second split field),
`fillna(place)` when that column is absent, then the alias table. -/
def canonicalize (place : String) : String :=
  match splitCS place.data with
  | _ :: second :: _ => aliasOf (String.mk second)
  | _ => aliasOf place

/-- The first-delimiter suffix of a character list, when a delimiter occurs. -/
def afterFirstDelim : List Char → Option (List Char)
  | [] => none
  | ',' :: ' ' :: rest => some rest
  | _ :: rest => afterFirstDelim rest

/-- Modelled from the spec wording of claim C2 (for comparison with
`canonicalize`, which is the embedding of the source): the candidate region
is everything after the FIRST `", "` delimiter, the whole string when no
delimiter is present, then the alias table. -/
def specCanonicalize (place : String) : String :=
  match afterFirstDelim place.data with
  | some r => aliasOf (String.mk r)
  | none => aliasOf place

/-! ### Data model -/

/-- One raw catalog event (the fields of the upstream table consumed by
`preprocess_data`), its `time` normalized to a calendar-day index. -/
structure RawEvent where
  time : ℕ
  place : String
  mag : ℚ
  depth : ℚ
  latitude : ℚ
  longitude : ℚ
deriving DecidableEq

/-- The rows of the event table whose canonicalized region is `R`
(the group of `R` under `df.groupby("region")`). -/
def eventsFor (R : String) (events : List RawEvent) : List RawEvent :=
  events.filter (fun e => canonicalize e.place == R)

/-- The distinct canonicalized region values observed in the event sample
(`df.region.unique()`). -/
def observedRegions (events : List RawEvent) : List String :=
  (events.map (fun e => canonicalize e.place)).dedup

/-- The hardcoded region-name superset of `get_regions` (`api.py` 82-110). -/
def hardcodedRegions : List String :=
  ["California", "Alaska", "Nevada", "Hawaii", "Washington", "Utah",
   "Montana", "Puerto Rico", "Indonesia", "Chile", "Baja California",
   "Oklahoma", "Japan", "Greece", "Papua New Guinea", "Philippines",
   "Mexico", "Italy", "Russia", "Idaho", "Aleutian Islands", "Tonga",
   "Oregon", "Wyoming", "Turkey"]

/-- `get_regions()`: the hardcoded superset intersected with the regions
observed in the sample. -/
def whitelist (events : List RawEvent) : List String :=
  hardcodedRegions.filter (fun R => R ∈ observedRegions events)

/-- Minimum event day of a group, `df.index.min()` (`none` on an empty
group, where pandas yields `NaT` and `pd.date_range` then raises). -/
def minDay? : List RawEvent → Option ℕ
  | [] => none
  | e :: es =>
    match minDay? es with
    | none => some e.time
    | some m => some (min e.time m)

/-- The first observed day of region `R` (defaulted to 0; only used where
the region is known to be observed). -/
def minDayOf (events : List RawEvent) (R : String) : ℕ :=
  (minDay? (eventsFor R events)).getD 0

/-! ### Daily aligner (`preprocess_data`, `api.py` 127-163, and `reindex`,
`api.py` 120-124) -/

/-- The dense daily index `pd.date_range(start=s, end=e, freq="d")`. -/
def dateRange (s e : ℕ) : List ℕ :=
  (List.range (e + 1 - s)).map (fun k => s + k)

/-- Daily mean aggregation of one numeric field over the events of one
region (`resample("d").mean()`): the arithmetic mean of the field over the
events of day `d`, absent when the day has no events. -/
def aggField (f : RawEvent → ℚ) (evs : List RawEvent) (d : ℕ) : Option ℚ :=
  let dayEvents := evs.filter (fun e => e.time == d)
  if dayEvents.isEmpty then none
  else some ((dayEvents.map f).sum / (dayEvents.length : ℚ))

/-- Forward fill along a dense daily index: `ffillSteps g s k` is the last
present value of `g` on the days `s, s+1, ..., s+k` (pandas `ffill`). -/
def ffillSteps (g : ℕ → Option ℚ) (s : ℕ) : ℕ → Option ℚ
  | 0 => g s
  | k + 1 =>
    match g (s + k + 1) with
    | some v => some v
    | none => ffillSteps g s k

/-- Forward-filled value at day `d` of a column starting at day `s`. -/
def ffilled (g : ℕ → Option ℚ) (s d : ℕ) : Option ℚ :=
  ffillSteps g s (d - s)

/-- One region's slice of the dense daily grid produced by
`preprocess_data`: the day interval `[start, stop]` and the four
forward-filled numeric fields as functions of the day. -/
structure RegionSeries where
  start : ℕ
  stop : ℕ
  days : List ℕ
  mag : ℕ → Option ℚ
  depth : ℕ → Option ℚ
  latitude : ℕ → Option ℚ
  longitude : ℕ → Option ℚ

/-- The aligned series of one region: resample to daily means, reindex to
the dense range `[s, today]`, forward-fill every numeric column (both the
all-regions branch via `reindex(group, 0)` and the single-region branch,
`api.py` 148-161, forward-fill all columns at this stage). -/
def preSeries (evs : List RawEvent) (s today : ℕ) : RegionSeries where
  start := s
  stop := today
  days := dateRange s today
  mag := fun d => ffilled (aggField RawEvent.mag evs) s d
  depth := fun d => ffilled (aggField RawEvent.depth evs) s d
  latitude := fun d => ffilled (aggField RawEvent.latitude evs) s d
  longitude := fun d => ffilled (aggField RawEvent.longitude evs) s d

/-- `preprocess_data(df, region=None)`: restrict to the whitelist, then one
dense forward-filled daily series per region, from the region's earliest
observed day through today. -/
def preprocessAll (events : List RawEvent) (today : ℕ) : List (String × RegionSeries) :=
  (whitelist events).map (fun R => (R, preSeries (eventsFor R events) (minDayOf events R) today))

/-- `preprocess_data(df, region=R)`: filter to the one region (no whitelist
check), reindex from its earliest day through today, forward-fill.  On an
empty selection `df.index.min()` is `NaT` and `pd.date_range` raises; that
failure is `none`. -/
def preprocessSingle (events : List RawEvent) (R : String) (today : ℕ) : Option RegionSeries :=
  (minDay? (eventsFor R events)).map (fun s => preSeries (eventsFor R events) s today)

/-! ### Horizon extension and feature builder (`create_features`,
`api.py` 166-218) -/

/-- Positional shift of a column `i` steps downward within one group
(`groupby("region").col.shift(i)`): `i` leading absents, then the column
truncated at the end. -/
def shiftCol (i : ℕ) (xs : List (Option ℚ)) : List (Option ℚ) :=
  List.replicate (min i xs.length) none ++ xs.take (xs.length - i)

/-- Arithmetic mean of a list of rationals. -/
def meanQ (ys : List ℚ) : ℚ := ys.sum / (ys.length : ℚ)

/-- Sample variance (pandas `ddof = 1`), the square of the rolling std. -/
def varQ (ys : List ℚ) : ℚ :=
  (ys.map (fun y => (y - meanQ ys) * (y - meanQ ys))).sum / ((ys.length : ℚ) - 1)

/-- Trailing rolling statistic of window `w` (`rolling(window=w)`, default
`min_periods = w`): at position `p`, the statistic of the last `w` cells
when `p + 1 ≥ w` and all of them are present, absent otherwise. -/
def rollingStat (f : List ℚ → ℚ) (w : ℕ) (xs : List (Option ℚ)) : List (Option ℚ) :=
  (List.range xs.length).map (fun p =>
    if w ≤ p + 1 then
      let win := (xs.drop (p + 1 - w)).take w
      if win.all Option.isSome then some (f (win.filterMap id)) else none
    else none)

/-- The lag distances `range(_START_LAG, _END_LAG + 1)` with
`_START_LAG = 3`, `_END_LAG = 10` (`api.py` 73-74). -/
def lagList : List ℕ := [3, 4, 5, 6, 7, 8, 9, 10]

/-- One region's slice of the engineered feature table: the extended day
index, the four extended value columns, the eight magnitude and depth lag
columns (positions matching `lagList`), and the rolling mean/variance
columns of windows 3 and 10. -/
structure RegionFeatures where
  days : List ℕ
  mag : List (Option ℚ)
  depth : List (Option ℚ)
  latitude : List (Option ℚ)
  longitude : List (Option ℚ)
  magLags : List (List (Option ℚ))
  depthLags : List (List (Option ℚ))
  magRollMean3 : List (Option ℚ)
  magRollVar3 : List (Option ℚ)
  depthRollMean3 : List (Option ℚ)
  depthRollVar3 : List (Option ℚ)
  magRollMean10 : List (Option ℚ)
  magRollVar10 : List (Option ℚ)
  depthRollMean10 : List (Option ℚ)
  depthRollVar10 : List (Option ℚ)
deriving DecidableEq

/-- Cut a day-indexed column after `today` (the reindex of a series that
ends at `today` to a longer range leaves the new rows absent). -/
def restrictPast (today : ℕ) (g : ℕ → Option ℚ) : ℕ → Option ℚ :=
  fun d => if d ≤ today then g d else none

/-- Extension of one preprocessed column in the all-regions branch of
`create_features` (`reindex(group, 3)`, `api.py` 173-177 and 120-124):
reindex to `[s, today + 3]` and forward-fill THE WHOLE FRAME, so the three
new future rows receive the last pre-extension value of every column. -/
def extAll (today s : ℕ) (g : ℕ → Option ℚ) : ℕ → Option ℚ :=
  fun d => ffilled (restrictPast today g) s d

/-- Build the feature columns of one region from its four extended value
columns on the day interval `[s, e]`: lag columns for the distances in
`lagList` and rolling mean/variance columns of windows 3 and 10, all
computed within the one region (`api.py` 186-216). -/
def mkFeatures (gm gd gla glo : ℕ → Option ℚ) (s e : ℕ) : RegionFeatures :=
  let days := dateRange s e
  let magCol := days.map gm
  let depthCol := days.map gd
  { days := days
    mag := magCol
    depth := depthCol
    latitude := days.map gla
    longitude := days.map glo
    magLags := lagList.map (fun i => shiftCol i magCol)
    depthLags := lagList.map (fun i => shiftCol i depthCol)
    magRollMean3 := rollingStat meanQ 3 magCol
    magRollVar3 := rollingStat varQ 3 magCol
    depthRollMean3 := rollingStat meanQ 3 depthCol
    depthRollVar3 := rollingStat varQ 3 depthCol
    magRollMean10 := rollingStat meanQ 10 magCol
    magRollVar10 := rollingStat varQ 10 magCol
    depthRollMean10 := rollingStat meanQ 10 depthCol
    depthRollVar10 := rollingStat varQ 10 depthCol }

/-- The all-regions branch of `create_features` on one region: extend the
preprocessed series to `[s, today + 3]` forward-filling every column, then
build the feature columns. -/
def regionFeaturesAll (evs : List RawEvent) (s today : ℕ) : RegionFeatures :=
  let ser := preSeries evs s today
  mkFeatures (extAll today s ser.mag) (extAll today s ser.depth)
    (extAll today s ser.latitude) (extAll today s ser.longitude) s (today + 3)

/-- `create_features(df, region=None)` applied to the output of
`preprocess_data(df, None)`: one feature slice per whitelisted region. -/
def createFeaturesAll (events : List RawEvent) (today : ℕ) : List (String × RegionFeatures) :=
  (whitelist events).map (fun R => (R, regionFeaturesAll (eventsFor R events) (minDayOf events R) today))

/-- The single-region branch of `create_features` (`api.py` 178-184):
reindex to `[s, today + 3]` WITHOUT forward-filling the value columns
(only the region label is forward-filled), then build the features. -/
def regionFeaturesSingle (evs : List RawEvent) (s today : ℕ) : RegionFeatures :=
  let ser := preSeries evs s today
  mkFeatures (restrictPast today ser.mag) (restrictPast today ser.depth)
    (restrictPast today ser.latitude) (restrictPast today ser.longitude) s (today + 3)

/-- `create_features(preprocess_data(df, R), R)`, propagating the
empty-region failure of `preprocess_data`. -/
def featuresSingle (events : List RawEvent) (R : String) (today : ℕ) : Option RegionFeatures :=
  (minDay? (eventsFor R events)).map (fun s => regionFeaturesSingle (eventsFor R events) s today)

/-! ### Forecast assembler (`get_forecast` and `forecast_earthquakes`,
`api.py` 221-267) -/

/-- One row of the feature table projected to the columns kept by
`get_forecast` before the merge with the model output. -/
structure BaseRow where
  region : String
  date : ℕ
  mag : Option ℚ
  dep : Option ℚ
  lat : Option ℚ
  lon : Option ℚ
deriving DecidableEq

/-- The rows of one region's feature slice, in day order. -/
def regionBaseRows (R : String) (F : RegionFeatures) : List BaseRow :=
  (List.range F.days.length).map (fun p =>
    { region := R, date := F.days.getD p 0, mag := F.mag.getD p none,
      dep := F.depth.getD p none, lat := F.latitude.getD p none,
      lon := F.longitude.getD p none })

/-- The concatenated rows of the whole feature table. -/
def baseRows (tbl : List (String × RegionFeatures)) : List BaseRow :=
  (tbl.map (fun RF => regionBaseRows RF.1 RF.2)).flatten

/-- The external regression model: consumes the feature table, returns one
(magnitude estimate, depth estimate) pair per row, order-preserving. -/
abbrev Model := List (String × RegionFeatures) → List (ℚ × ℚ)

/-- One row of the final forecast table of `get_forecast`. -/
structure ForecastRow where
  date : ℕ
  magnitude : Option ℚ
  magnitudeForecast : ℚ
  depth : Option ℚ
  depthForecast : ℚ
  region : String
  latitude : Option ℚ
  longitude : Option ℚ
deriving DecidableEq

/-- The assembled forecast table before windowing: the feature rows joined
by position with the model's predictions (`api.py` 244-258). -/
def assemble (events : List RawEvent) (today : ℕ) (model : Model) : List ForecastRow :=
  let tbl := createFeaturesAll events today
  (List.zip (baseRows tbl) (model tbl)).map (fun rp =>
    { date := rp.1.date, magnitude := rp.1.mag, magnitudeForecast := rp.2.1,
      depth := rp.1.dep, depthForecast := rp.2.2, region := rp.1.region,
      latitude := rp.1.lat, longitude := rp.1.lon })

/-- `get_forecast()`: the assembled table restricted to the rows whose date
is on or after `today - 7` (`api.py` 259-260). -/
def getForecast (events : List RawEvent) (today : ℕ) (model : Model) : List ForecastRow :=
  (assemble events today model).filter (fun r => decide (today - 7 ≤ r.date))

/-- `forecast_earthquakes()`: the `get_forecast` table further restricted
to the rows whose date is on or after `today` (`api.py` 263-267). -/
def forecastEarthquakes (events : List RawEvent) (today : ℕ) (model : Model) : List ForecastRow :=
  (getForecast events today model).filter (fun r => decide (today ≤ r.date))

/-! ### General lemmas about the embedded operations -/

theorem dateRange_length (s e : ℕ) : (dateRange s e).length = e + 1 - s := by
  simp [dateRange]

theorem dateRange_getElem? {s e p : ℕ} (hp : p < e + 1 - s) :
    (dateRange s e)[p]? = some (s + p) := by
  simp [dateRange, List.getElem?_range hp]

theorem dateRange_getD {s e p : ℕ} (hp : p < e + 1 - s) :
    (dateRange s e).getD p 0 = s + p := by
  simp [List.getD_eq_getElem?_getD, dateRange_getElem? hp]

theorem mem_dateRange {s e d : ℕ} : d ∈ dateRange s e ↔ s ≤ d ∧ d ≤ e := by
  simp only [dateRange, List.mem_map, List.mem_range]
  constructor
  · rintro ⟨k, hk, rfl⟩
    omega
  · intro h
    exact ⟨d - s, by omega, by omega⟩

theorem map_dateRange_getD {g : ℕ → Option ℚ} {s e p : ℕ} (hp : p < e + 1 - s) :
    ((dateRange s e).map g).getD p none = g (s + p) := by
  simp [List.getD_eq_getElem?_getD, dateRange_getElem? hp]

theorem map_dateRange_length {g : ℕ → Option ℚ} {s e : ℕ} :
    ((dateRange s e).map g).length = e + 1 - s := by
  simp [dateRange]

theorem shiftCol_length (i : ℕ) (xs : List (Option ℚ)) :
    (shiftCol i xs).length = xs.length := by
  simp [shiftCol]
  omega

theorem shiftCol_getD {i p : ℕ} {xs : List (Option ℚ)} (hp : p < xs.length) :
    (shiftCol i xs).getD p none = if i ≤ p then xs.getD (p - i) none else none := by
  by_cases hip : i ≤ p
  · rw [if_pos hip]
    have hmin : min i xs.length = i := by omega
    simp only [shiftCol, hmin, List.getD_eq_getElem?_getD]
    rw [List.getElem?_append_right (by simp; omega)]
    simp only [List.length_replicate]
    rw [List.getElem?_take_of_lt (by omega)]
  · rw [if_neg hip]
    have hlt : p < min i xs.length := by omega
    simp only [shiftCol, List.getD_eq_getElem?_getD]
    rw [List.getElem?_append]
    simp [List.getElem?_replicate, hlt]

theorem rollingStat_getD {f : List ℚ → ℚ} {w p : ℕ} {xs : List (Option ℚ)}
    (hp : p < xs.length) :
    (rollingStat f w xs).getD p none =
      if w ≤ p + 1 then
        (if ((xs.drop (p + 1 - w)).take w).all Option.isSome
         then some (f (((xs.drop (p + 1 - w)).take w).filterMap id)) else none)
      else none := by
  simp [rollingStat, List.getD_eq_getElem?_getD, List.getElem?_range hp]

theorem ffillSteps_isSome {g : ℕ → Option ℚ} {s : ℕ} (h : (g s).isSome = true) :
    ∀ k, (ffillSteps g s k).isSome = true := by
  intro k
  induction k with
  | zero => exact h
  | succ k ih =>
    rw [ffillSteps]
    split
    · rfl
    · exact ih

theorem ffillSteps_stat {g : ℕ → Option ℚ} {s k : ℕ} (h : g (s + k + 1) = none) :
    ffillSteps g s (k + 1) = ffillSteps g s k := by
  rw [ffillSteps, h]

theorem ffillSteps_const_above {g : ℕ → Option ℚ} {s e : ℕ}
    (h : ∀ j, e < j → g j = none) :
    ∀ k, e ≤ s + k → s ≤ e → ffillSteps g s k = ffillSteps g s (e - s) := by
  intro k
  induction k with
  | zero =>
    intro h1 h2
    have : e - s = 0 := by omega
    rw [this]
  | succ k ih =>
    intro h1 h2
    by_cases hk : e ≤ s + k
    · rw [ffillSteps_stat (h _ (by omega)), ih hk h2]
    · have : e - s = k + 1 := by omega
      rw [this]

theorem ffilled_self {g : ℕ → Option ℚ} {s : ℕ} : ffilled g s s = g s := by
  unfold ffilled
  rw [Nat.sub_self]
  rfl

theorem extAll_isSome {g : ℕ → Option ℚ} {today s : ℕ} (hst : s ≤ today)
    (hg : (g s).isSome = true) (d : ℕ) : (extAll today s g d).isSome = true := by
  apply ffillSteps_isSome
  simpa [restrictPast, hst] using hg

theorem extAll_future {g : ℕ → Option ℚ} {today s : ℕ} (hst : s ≤ today)
    {d : ℕ} (hd : today ≤ d) : extAll today s g d = extAll today s g today := by
  unfold extAll ffilled
  exact ffillSteps_const_above (fun j hj => by simp [restrictPast, Nat.not_le.mpr hj])
    (d - s) (by omega) hst

theorem aggField_isSome {f : RawEvent → ℚ} {evs : List RawEvent} {d : ℕ}
    (h : ∃ e ∈ evs, e.time = d) : (aggField f evs d).isSome = true := by
  obtain ⟨e, he, ht⟩ := h
  have hmem : e ∈ evs.filter (fun x => x.time == d) := by
    simp [List.mem_filter, he, ht]
  have hne : evs.filter (fun x => x.time == d) ≠ [] := List.ne_nil_of_mem hmem
  simp [aggField, List.isEmpty_eq_false_iff_exists_mem.mpr ⟨e, hmem⟩]

theorem minDay?_eq_none {evs : List RawEvent} : minDay? evs = none ↔ evs = [] := by
  cases evs with
  | nil => simp [minDay?]
  | cons e es =>
    cases h : minDay? es <;> simp [minDay?, h]

theorem minDay?_spec {evs : List RawEvent} {s : ℕ} (h : minDay? evs = some s) :
    (∃ e ∈ evs, e.time = s) ∧ ∀ e ∈ evs, s ≤ e.time := by
  induction evs generalizing s with
  | nil => simp [minDay?] at h
  | cons e es ih =>
    rw [minDay?] at h
    cases hm : minDay? es with
    | none =>
      rw [hm] at h
      have hes : es = [] := minDay?_eq_none.mp hm
      subst hes
      simp only [Option.some_inj] at h
      subst h
      simp
    | some m =>
      rw [hm] at h
      simp only [Option.some_inj] at h
      obtain ⟨⟨e2, he2, ht2⟩, hb⟩ := ih hm
      constructor
      · rcases Nat.le_total e.time m with hle | hle
        · exact ⟨e, by simp, by omega⟩
        · exact ⟨e2, by simp [he2], by omega⟩
      · intro e3 he3
        rcases List.mem_cons.mp he3 with rfl | he3
        · omega
        · have := hb e3 he3
          omega

theorem mem_eventsFor {R : String} {events : List RawEvent} {e : RawEvent} :
    e ∈ eventsFor R events ↔ e ∈ events ∧ canonicalize e.place = R := by
  simp [eventsFor, List.mem_filter]

theorem eventsFor_ne_nil {R : String} {events : List RawEvent} :
    eventsFor R events ≠ [] ↔ ∃ e ∈ events, canonicalize e.place = R := by
  constructor
  · intro h
    obtain ⟨e, he⟩ := List.exists_mem_of_ne_nil _ h
    exact ⟨e, (mem_eventsFor.mp he).1, (mem_eventsFor.mp he).2⟩
  · rintro ⟨e, he, hc⟩ hnil
    have := mem_eventsFor.mpr ⟨he, hc⟩
    rw [hnil] at this
    simp at this

theorem mem_whitelist {R : String} {events : List RawEvent} :
    R ∈ whitelist events ↔
      R ∈ hardcodedRegions ∧ ∃ e ∈ events, canonicalize e.place = R := by
  simp only [whitelist, List.mem_filter, observedRegions, List.mem_dedup,
    List.mem_map, decide_eq_true_eq]

theorem minDay?_isSome_of_whitelist {R : String} {events : List RawEvent}
    (h : R ∈ whitelist events) :
    minDay? (eventsFor R events) = some (minDayOf events R) := by
  have hne : eventsFor R events ≠ [] := eventsFor_ne_nil.mpr (mem_whitelist.mp h).2
  cases hm : minDay? (eventsFor R events) with
  | none => exact absurd (minDay?_eq_none.mp hm) hne
  | some s => simp [minDayOf, hm]

theorem lagList_getD_map {f : ℕ → List (Option ℚ)} {i : ℕ} (hi : i ∈ lagList) :
    (lagList.map f).getD (i - 3) [] = f i := by
  fin_cases hi <;> rfl

theorem lagList_bounds {i : ℕ} (hi : i ∈ lagList) : 3 ≤ i ∧ i ≤ 10 := by
  fin_cases hi <;> omega

theorem mkFeatures_magLag_getD (gm gd gla glo : ℕ → Option ℚ) (s e : ℕ) {i p : ℕ}
    (hi : i ∈ lagList) (hp : p < e + 1 - s) :
    ((mkFeatures gm gd gla glo s e).magLags.getD (i - 3) []).getD p none
      = if i ≤ p then (mkFeatures gm gd gla glo s e).mag.getD (p - i) none
        else none := by
  show ((lagList.map (fun j => shiftCol j ((dateRange s e).map gm))).getD (i - 3) []).getD p none = _
  rw [lagList_getD_map hi]
  rw [shiftCol_getD (by rw [map_dateRange_length]; exact hp)]
  rfl

theorem mkFeatures_depthLag_getD (gm gd gla glo : ℕ → Option ℚ) (s e : ℕ) {i p : ℕ}
    (hi : i ∈ lagList) (hp : p < e + 1 - s) :
    ((mkFeatures gm gd gla glo s e).depthLags.getD (i - 3) []).getD p none
      = if i ≤ p then (mkFeatures gm gd gla glo s e).depth.getD (p - i) none
        else none := by
  show ((lagList.map (fun j => shiftCol j ((dateRange s e).map gd))).getD (i - 3) []).getD p none = _
  rw [lagList_getD_map hi]
  rw [shiftCol_getD (by rw [map_dateRange_length]; exact hp)]
  rfl

theorem splitCS_ne_nil : ∀ l : List Char, splitCS l ≠ [] := by
  intro l
  match l with
  | [] => simp [splitCS]
  | [c] => simp [splitCS]
  | c :: c2 :: rest =>
    rw [splitCS]
    split
    · simp
    · split <;> simp

theorem splitCS_append : ∀ (a b : List Char), containsDelim a = false →
    splitCS (a ++ ',' :: ' ' :: b) = a :: splitCS b := by
  intro a
  induction a with
  | nil =>
    intro b _
    simp [splitCS]
  | cons c a' ih =>
    intro b ha
    cases a' with
    | nil =>
      show splitCS (c :: ',' :: ' ' :: b) = [c] :: splitCS b
      simp [splitCS]
    | cons x a'' =>
      rw [containsDelim, Bool.or_eq_false_iff] at ha
      obtain ⟨hcx, ha'⟩ := ha
      show splitCS (c :: x :: (a'' ++ ',' :: ' ' :: b)) = (c :: x :: a'') :: splitCS b
      rw [splitCS]
      rw [if_neg (by rw [hcx]; simp)]
      rw [show splitCS (x :: (a'' ++ ',' :: ' ' :: b)) = (x :: a'') :: splitCS b from by
        rw [← List.cons_append]
        exact ih b ha']

theorem splitCS_noDelim : ∀ p : List Char, containsDelim p = false → splitCS p = [p] := by
  intro p
  induction p with
  | nil => intro _; rfl
  | cons c p' ih =>
    intro hp
    cases p' with
    | nil => rfl
    | cons x p'' =>
      rw [containsDelim, Bool.or_eq_false_iff] at hp
      obtain ⟨hcx, hp'⟩ := hp
      rw [splitCS]
      rw [if_neg (by rw [hcx]; simp)]
      rw [ih hp']

/-! ### Claim C2 -/

/-- C2 counterexample: the claim says the candidate region is everything
after the FIRST `", "` delimiter.  On a place string with two delimiters
the code instead takes the second split field: for
`"10km N of Delta, B.C., MX"` the code canonicalizes to `"Baja California"`
(field `"B.C."` aliased), while the claimed rule yields `"B.C., MX"`. -/
theorem c2_counterexample :
    canonicalize "10km N of Delta, B.C., MX" = "Baja California"
    ∧ specCanonicalize "10km N of Delta, B.C., MX" = "B.C., MX"
    ∧ canonicalize "10km N of Delta, B.C., MX"
        ≠ specCanonicalize "10km N of Delta, B.C., MX" :=
  ⟨by decide, by decide, by decide⟩

/-- C2 corrected: for every place string, the canonicalizer takes the
SECOND `", "`-separated field (the substring between the first and second
delimiters, i.e. the first field of what follows the first delimiter) when
at least one delimiter is present, the whole string otherwise, and then
applies the alias table mapping exactly `"CA"` to `"California"` and
`"B.C."` to `"Baja California"`. -/
theorem c2_second_field (a b : List Char) (ha : containsDelim a = false) :
    canonicalize (String.mk (a ++ ',' :: ' ' :: b))
        = aliasOf (String.mk ((splitCS b).headD []))
    ∧ ∀ p : List Char, containsDelim p = false →
        canonicalize (String.mk p) = aliasOf (String.mk p) := by
  constructor
  · obtain ⟨t, ts, hts⟩ := List.exists_cons_of_ne_nil (splitCS_ne_nil b)
    rw [canonicalize]
    rw [show (String.mk (a ++ ',' :: ' ' :: b)).data = a ++ ',' :: ' ' :: b from rfl]
    rw [splitCS_append a b ha, hts]
    rfl
  · intro p hp
    rw [canonicalize]
    rw [show (String.mk p).data = p from rfl]
    rw [splitCS_noDelim p hp]

/-- C2 witness: the corrected characterization applied to the
counterexample place string and to a delimiter-free place string. -/
theorem c2_witness :
    canonicalize (String.mk ("10km N of Delta".data ++ ',' :: ' ' :: "B.C., MX".data))
        = aliasOf (String.mk ((splitCS "B.C., MX".data).headD []))
    ∧ canonicalize (String.mk "Northern California".data)
        = aliasOf (String.mk "Northern California".data) :=
  ⟨(c2_second_field "10km N of Delta".data "B.C., MX".data (by decide)).1,
    (c2_second_field "x".data "y".data (by decide)).2 "Northern California".data (by decide)⟩

/-! ### Unfolding lemmas for the per-region feature builders -/

theorem mkFeatures_days (gm gd gla glo : ℕ → Option ℚ) (s e : ℕ) :
    (mkFeatures gm gd gla glo s e).days = dateRange s e := rfl

theorem mkFeatures_mag (gm gd gla glo : ℕ → Option ℚ) (s e : ℕ) :
    (mkFeatures gm gd gla glo s e).mag = (dateRange s e).map gm := rfl

theorem mkFeatures_depth (gm gd gla glo : ℕ → Option ℚ) (s e : ℕ) :
    (mkFeatures gm gd gla glo s e).depth = (dateRange s e).map gd := rfl

theorem mkFeatures_latitude (gm gd gla glo : ℕ → Option ℚ) (s e : ℕ) :
    (mkFeatures gm gd gla glo s e).latitude = (dateRange s e).map gla := rfl

theorem mkFeatures_longitude (gm gd gla glo : ℕ → Option ℚ) (s e : ℕ) :
    (mkFeatures gm gd gla glo s e).longitude = (dateRange s e).map glo := rfl

theorem regionFeaturesAll_eq (evs : List RawEvent) (s today : ℕ) :
    regionFeaturesAll evs s today
      = mkFeatures (extAll today s (fun d => ffilled (aggField RawEvent.mag evs) s d))
          (extAll today s (fun d => ffilled (aggField RawEvent.depth evs) s d))
          (extAll today s (fun d => ffilled (aggField RawEvent.latitude evs) s d))
          (extAll today s (fun d => ffilled (aggField RawEvent.longitude evs) s d))
          s (today + 3) := rfl

theorem regionFeaturesSingle_eq (evs : List RawEvent) (s today : ℕ) :
    regionFeaturesSingle evs s today
      = mkFeatures (restrictPast today (fun d => ffilled (aggField RawEvent.mag evs) s d))
          (restrictPast today (fun d => ffilled (aggField RawEvent.depth evs) s d))
          (restrictPast today (fun d => ffilled (aggField RawEvent.latitude evs) s d))
          (restrictPast today (fun d => ffilled (aggField RawEvent.longitude evs) s d))
          s (today + 3) := rfl

theorem preBase_isSome {f : RawEvent → ℚ} {evs : List RawEvent} {s : ℕ}
    (h : ∃ e ∈ evs, e.time = s) :
    ((fun d => ffilled (aggField f evs) s d) s).isSome = true := by
  show (ffilled (aggField f evs) s s).isSome = true
  rw [ffilled_self]
  exact aggField_isSome h

/-! ### Claim C1 -/

/-- Concrete event used by the C1 counterexample and witness. -/
def c1Event : RawEvent :=
  { time := 1, place := "a, California", mag := 5, depth := 7, latitude := 2, longitude := 3 }

/-- C1 counterexample: with one event on day 1 and alignment end date 1,
the all-regions path of `create_features` produces a feature table whose
California slice has day 2 (strictly after the alignment end date) at
position 1, yet the magnitude, depth, latitude and longitude cells of that
future row are all present, forward-filled by `reindex(group, 3).ffill()` —
so the claim that both paths leave them absent is false. -/
theorem c1_counterexample :
    createFeaturesAll [c1Event] 1
      = [("California",
          regionFeaturesAll (eventsFor "California" [c1Event]) (minDayOf [c1Event] "California") 1)]
    ∧ (regionFeaturesAll (eventsFor "California" [c1Event])
        (minDayOf [c1Event] "California") 1).days.getD 1 0 = 2
    ∧ 1 < 2
    ∧ ((regionFeaturesAll (eventsFor "California" [c1Event])
        (minDayOf [c1Event] "California") 1).mag.getD 1 none).isSome = true
    ∧ ((regionFeaturesAll (eventsFor "California" [c1Event])
        (minDayOf [c1Event] "California") 1).depth.getD 1 none).isSome = true
    ∧ ((regionFeaturesAll (eventsFor "California" [c1Event])
        (minDayOf [c1Event] "California") 1).latitude.getD 1 none).isSome = true
    ∧ ((regionFeaturesAll (eventsFor "California" [c1Event])
        (minDayOf [c1Event] "California") 1).longitude.getD 1 none).isSome = true :=
  ⟨rfl, by decide, by decide, by decide, by decide, by decide, by decide⟩

/-- C1 corrected: the horizon extension forward-fills only the region
label, leaving magnitude, depth, latitude and longitude absent in the
strictly-future rows, in the SINGLE-REGION path only; in the all-regions
path `reindex(group, 3)` forward-fills every column, so each value column
of an extended row on or after the alignment end date equals that column's
value at the alignment end date. -/
theorem c1_extension_fill (events : List RawEvent) (R : String) (today : ℕ)
    (F : RegionFeatures) (hF : featuresSingle events R today = some F) :
    (∀ p, p < F.days.length → today < F.days.getD p 0 →
      F.mag.getD p none = none ∧ F.depth.getD p none = none ∧
      F.latitude.getD p none = none ∧ F.longitude.getD p none = none)
    ∧ (∀ s, s = minDayOf events R → s ≤ today →
        ∀ p, p < (regionFeaturesAll (eventsFor R events) s today).days.length →
          today - s ≤ p →
          (regionFeaturesAll (eventsFor R events) s today).mag.getD p none
              = (regionFeaturesAll (eventsFor R events) s today).mag.getD (today - s) none
          ∧ (regionFeaturesAll (eventsFor R events) s today).depth.getD p none
              = (regionFeaturesAll (eventsFor R events) s today).depth.getD (today - s) none
          ∧ (regionFeaturesAll (eventsFor R events) s today).latitude.getD p none
              = (regionFeaturesAll (eventsFor R events) s today).latitude.getD (today - s) none
          ∧ (regionFeaturesAll (eventsFor R events) s today).longitude.getD p none
              = (regionFeaturesAll (eventsFor R events) s today).longitude.getD (today - s) none) := by
  constructor
  · unfold featuresSingle at hF
    cases hm : minDay? (eventsFor R events) with
    | none =>
      rw [hm] at hF
      simp at hF
    | some s0 =>
      rw [hm] at hF
      simp only [Option.map_some'] at hF
      have hFe : F = regionFeaturesSingle (eventsFor R events) s0 today := by
        injection hF with hF'
        exact hF'.symm
      subst hFe
      intro p hp hday
      rw [regionFeaturesSingle_eq, mkFeatures_days, dateRange_length] at hp
      rw [regionFeaturesSingle_eq, mkFeatures_days, dateRange_getD hp] at hday
      rw [regionFeaturesSingle_eq]
      rw [mkFeatures_mag, mkFeatures_depth, mkFeatures_latitude, mkFeatures_longitude]
      rw [map_dateRange_getD hp, map_dateRange_getD hp, map_dateRange_getD hp,
        map_dateRange_getD hp]
      have hnot : ¬(s0 + p ≤ today) := by omega
      refine ⟨?_, ?_, ?_, ?_⟩ <;> simp [restrictPast, hnot]
  · intro s _ hst p hp hfut
    rw [regionFeaturesAll_eq, mkFeatures_days, dateRange_length] at hp
    have htd : today - s < today + 3 + 1 - s := by omega
    have hcol : ∀ g : ℕ → Option ℚ,
        ((dateRange s (today + 3)).map (extAll today s g)).getD p none
          = ((dateRange s (today + 3)).map (extAll today s g)).getD (today - s) none := by
      intro g
      rw [map_dateRange_getD hp, map_dateRange_getD htd]
      rw [extAll_future hst (show today ≤ s + p by omega)]
      rw [show s + (today - s) = today from by omega]
    rw [regionFeaturesAll_eq]
    rw [mkFeatures_mag, mkFeatures_depth, mkFeatures_latitude, mkFeatures_longitude]
    exact ⟨hcol _, hcol _, hcol _, hcol _⟩

/-- C1 witness: in the concrete single-region run the future magnitude
cell is absent, and in the all-regions run the future magnitude cell
equals the alignment-end magnitude cell. -/
theorem c1_witness :
    (regionFeaturesSingle (eventsFor "California" [c1Event]) 1 1).mag.getD 2 none = none
    ∧ (regionFeaturesAll (eventsFor "California" [c1Event]) 1 1).mag.getD 2 none
        = (regionFeaturesAll (eventsFor "California" [c1Event]) 1 1).mag.getD 0 none := by
  have h := c1_extension_fill [c1Event] "California" 1
    (regionFeaturesSingle (eventsFor "California" [c1Event]) 1 1) rfl
  refine ⟨(h.1 2 (by decide) (by decide)).1, ?_⟩
  have h2 := (h.2 1 (by decide) (by decide) 2 (by decide) (by decide)).1
  exact h2

/-! ### Claim C3 -/

/-- C3 confirmed: in the all-regions feature table, for every region of
the table, every lag distance `i` in 3..10 and every position `p` of the
region's extended daily index (day `D = start + p`), the lag-`i` magnitude
(resp. depth) feature equals the extended grid's magnitude (resp. depth)
cell at day `D - i` when `D - i` is at or after the region's first day
(`i ≤ p`), and is absent otherwise; the columns are built from the one
region's series alone, so the shifted value is never read from another
region. -/
theorem c3_lag_matches_grid (events : List RawEvent) (today : ℕ) (R : String)
    (hR : R ∈ whitelist events) (i : ℕ) (hi : i ∈ lagList) (p : ℕ)
    (hp : p < (regionFeaturesAll (eventsFor R events) (minDayOf events R) today).days.length) :
    (regionFeaturesAll (eventsFor R events) (minDayOf events R) today).days.getD p 0
        = minDayOf events R + p
    ∧ ((regionFeaturesAll (eventsFor R events) (minDayOf events R) today).magLags.getD
          (i - 3) []).getD p none
        = (if i ≤ p
           then (regionFeaturesAll (eventsFor R events) (minDayOf events R) today).mag.getD
              (p - i) none
           else none)
    ∧ ((regionFeaturesAll (eventsFor R events) (minDayOf events R) today).depthLags.getD
          (i - 3) []).getD p none
        = (if i ≤ p
           then (regionFeaturesAll (eventsFor R events) (minDayOf events R) today).depth.getD
              (p - i) none
           else none) := by
  rw [regionFeaturesAll_eq, mkFeatures_days, dateRange_length] at hp
  rw [regionFeaturesAll_eq]
  exact ⟨by rw [mkFeatures_days]; exact dateRange_getD hp,
    mkFeatures_magLag_getD _ _ _ _ _ _ hi hp,
    mkFeatures_depthLag_getD _ _ _ _ _ _ hi hp⟩

/-- Concrete event used by the C3 witness. -/
def c3Event : RawEvent :=
  { time := 0, place := "e, California", mag := 1, depth := 2, latitude := 3, longitude := 4 }

/-- C3 witness: the lag characterization evaluated in a concrete
one-event, one-region run at lag 3 and position 3. -/
theorem c3_witness :
    (regionFeaturesAll (eventsFor "California" [c3Event])
        (minDayOf [c3Event] "California") 0).days.getD 3 0
      = minDayOf [c3Event] "California" + 3
    ∧ ((regionFeaturesAll (eventsFor "California" [c3Event])
          (minDayOf [c3Event] "California") 0).magLags.getD (3 - 3) []).getD 3 none
        = (if 3 ≤ 3
           then (regionFeaturesAll (eventsFor "California" [c3Event])
              (minDayOf [c3Event] "California") 0).mag.getD (3 - 3) none
           else none)
    ∧ ((regionFeaturesAll (eventsFor "California" [c3Event])
          (minDayOf [c3Event] "California") 0).depthLags.getD (3 - 3) []).getD 3 none
        = (if 3 ≤ 3
           then (regionFeaturesAll (eventsFor "California" [c3Event])
              (minDayOf [c3Event] "California") 0).depth.getD (3 - 3) none
           else none) :=
  c3_lag_matches_grid [c3Event] 0 "California" (by decide) 3 (by decide) 3 (by decide)

/-! ### Claim C4 -/

/-- C4 confirmed: with horizon 3 and lags 3..10, in both the all-regions
path and the single-region path, every region with at least ten days of
history in the dense grid before extension has every magnitude and depth
lag feature present on each of the three appended future rows (positions
`today + k - start` for `k = 1, 2, 3`). -/
theorem c4_future_lags_defined (events : List RawEvent) (today : ℕ) (R : String)
    (hR : R ∈ whitelist events)
    (hhist : 10 ≤ today + 1 - minDayOf events R)
    (k : ℕ) (hk1 : 1 ≤ k) (hk3 : k ≤ 3) (i : ℕ) (hi : i ∈ lagList) :
    (((regionFeaturesAll (eventsFor R events) (minDayOf events R) today).magLags.getD
        (i - 3) []).getD (today + k - minDayOf events R) none).isSome = true
    ∧ (((regionFeaturesAll (eventsFor R events) (minDayOf events R) today).depthLags.getD
        (i - 3) []).getD (today + k - minDayOf events R) none).isSome = true
    ∧ (((regionFeaturesSingle (eventsFor R events) (minDayOf events R) today).magLags.getD
        (i - 3) []).getD (today + k - minDayOf events R) none).isSome = true
    ∧ (((regionFeaturesSingle (eventsFor R events) (minDayOf events R) today).depthLags.getD
        (i - 3) []).getD (today + k - minDayOf events R) none).isSome = true := by
  obtain ⟨h3i, hi10⟩ := lagList_bounds hi
  have hmin : minDay? (eventsFor R events) = some (minDayOf events R) :=
    minDay?_isSome_of_whitelist hR
  obtain ⟨⟨e, he, ht⟩, -⟩ := minDay?_spec hmin
  have hs9 : minDayOf events R + 9 ≤ today := by omega
  have hp' : today + k - minDayOf events R < today + 3 + 1 - minDayOf events R := by omega
  have hip : i ≤ today + k - minDayOf events R := by omega
  have hpi : today + k - minDayOf events R - i < today + 3 + 1 - minDayOf events R := by omega
  have hday : minDayOf events R + (today + k - minDayOf events R - i) ≤ today := by omega
  refine ⟨?_, ?_, ?_, ?_⟩
  · rw [regionFeaturesAll_eq, mkFeatures_magLag_getD _ _ _ _ _ _ hi hp', if_pos hip,
      mkFeatures_mag, map_dateRange_getD hpi]
    exact extAll_isSome (by omega) (preBase_isSome ⟨e, he, ht⟩) _
  · rw [regionFeaturesAll_eq, mkFeatures_depthLag_getD _ _ _ _ _ _ hi hp', if_pos hip,
      mkFeatures_depth, map_dateRange_getD hpi]
    exact extAll_isSome (by omega) (preBase_isSome ⟨e, he, ht⟩) _
  · rw [regionFeaturesSingle_eq, mkFeatures_magLag_getD _ _ _ _ _ _ hi hp', if_pos hip,
      mkFeatures_mag, map_dateRange_getD hpi]
    simp only [restrictPast, if_pos hday]
    exact ffillSteps_isSome (aggField_isSome ⟨e, he, ht⟩) _
  · rw [regionFeaturesSingle_eq, mkFeatures_depthLag_getD _ _ _ _ _ _ hi hp', if_pos hip,
      mkFeatures_depth, map_dateRange_getD hpi]
    simp only [restrictPast, if_pos hday]
    exact ffillSteps_isSome (aggField_isSome ⟨e, he, ht⟩) _

/-- Concrete ten-day event history used by the C4 witness. -/
def c4Events : List RawEvent :=
  [{ time := 0, place := "California", mag := 1, depth := 1, latitude := 0, longitude := 0 },
   { time := 1, place := "California", mag := 1, depth := 1, latitude := 0, longitude := 0 },
   { time := 2, place := "California", mag := 1, depth := 1, latitude := 0, longitude := 0 },
   { time := 3, place := "California", mag := 1, depth := 1, latitude := 0, longitude := 0 },
   { time := 4, place := "California", mag := 1, depth := 1, latitude := 0, longitude := 0 },
   { time := 5, place := "California", mag := 1, depth := 1, latitude := 0, longitude := 0 },
   { time := 6, place := "California", mag := 1, depth := 1, latitude := 0, longitude := 0 },
   { time := 7, place := "California", mag := 1, depth := 1, latitude := 0, longitude := 0 },
   { time := 8, place := "California", mag := 1, depth := 1, latitude := 0, longitude := 0 },
   { time := 9, place := "California", mag := 1, depth := 1, latitude := 0, longitude := 0 }]

/-- C4 witness: the horizon invariant evaluated on a concrete ten-day
history at the first future day and lag 3. -/
theorem c4_witness :
    (((regionFeaturesAll (eventsFor "California" c4Events)
        (minDayOf c4Events "California") 9).magLags.getD (3 - 3) []).getD
        (9 + 1 - minDayOf c4Events "California") none).isSome = true
    ∧ (((regionFeaturesAll (eventsFor "California" c4Events)
        (minDayOf c4Events "California") 9).depthLags.getD (3 - 3) []).getD
        (9 + 1 - minDayOf c4Events "California") none).isSome = true
    ∧ (((regionFeaturesSingle (eventsFor "California" c4Events)
        (minDayOf c4Events "California") 9).magLags.getD (3 - 3) []).getD
        (9 + 1 - minDayOf c4Events "California") none).isSome = true
    ∧ (((regionFeaturesSingle (eventsFor "California" c4Events)
        (minDayOf c4Events "California") 9).depthLags.getD (3 - 3) []).getD
        (9 + 1 - minDayOf c4Events "California") none).isSome = true :=
  c4_future_lags_defined c4Events 9 "California" (by decide) (by decide)
    1 (by decide) (by decide) 3 (by decide)

/-! ### Claim C5 -/

theorem aggField_singleton {f : RawEvent → ℚ} {evs : List RawEvent} {d : ℕ} {e : RawEvent}
    (h : evs.filter (fun x => x.time == d) = [e]) :
    aggField f evs d = some (f e) := by
  unfold aggField
  rw [h]
  simp

/-- The C5 scenario: region "California" with twelve consecutive days of
events of magnitudes 1.0, 1.1, ..., 2.1 (day `d` has magnitude
`(9 + d)/10`). -/
def scenarioEvents : List RawEvent :=
  [{ time := 1, place := "California", mag := 10/10, depth := 1, latitude := 0, longitude := 0 },
   { time := 2, place := "California", mag := 11/10, depth := 1, latitude := 0, longitude := 0 },
   { time := 3, place := "California", mag := 12/10, depth := 1, latitude := 0, longitude := 0 },
   { time := 4, place := "California", mag := 13/10, depth := 1, latitude := 0, longitude := 0 },
   { time := 5, place := "California", mag := 14/10, depth := 1, latitude := 0, longitude := 0 },
   { time := 6, place := "California", mag := 15/10, depth := 1, latitude := 0, longitude := 0 },
   { time := 7, place := "California", mag := 16/10, depth := 1, latitude := 0, longitude := 0 },
   { time := 8, place := "California", mag := 17/10, depth := 1, latitude := 0, longitude := 0 },
   { time := 9, place := "California", mag := 18/10, depth := 1, latitude := 0, longitude := 0 },
   { time := 10, place := "California", mag := 19/10, depth := 1, latitude := 0, longitude := 0 },
   { time := 11, place := "California", mag := 20/10, depth := 1, latitude := 0, longitude := 0 },
   { time := 12, place := "California", mag := 21/10, depth := 1, latitude := 0, longitude := 0 }]

/-- C5 counterexample: in the twelve-day scenario the day-13 row (first
future day, position 12 of the extended index) has an ABSENT
`mag_rolling_mean_3`, because its trailing window covers days 11-13 and
the day-13 magnitude is absent; it does not equal the mean 9/5 of the
day-8..10 magnitudes as the claim states. -/
theorem c5_counterexample :
    (featuresSingle scenarioEvents "California" 12).map
        (fun F => F.magRollMean3.getD 12 none) = some none
    ∧ some (none : Option ℚ) ≠ some (some ((9 : ℚ) / 5)) :=
  ⟨by decide, by decide⟩

/-- C5 corrected: in the twelve-day scenario the day-13 row's `mag_lag_3`
equals the day-10 cell of the grid, whose realized magnitude is 19/10 as
the claim states, but `mag_rolling_mean_3` at day 13 is absent (its window
covers days 11-13 and day 13 has no magnitude), not the mean of the day
8-10 magnitudes. -/
theorem c5_first_future_day :
    (featuresSingle scenarioEvents "California" 12).map
        (fun F => (F.magLags.getD 0 []).getD 12 none)
      = (featuresSingle scenarioEvents "California" 12).map (fun F => F.mag.getD 9 none)
    ∧ (featuresSingle scenarioEvents "California" 12).map (fun F => F.mag.getD 9 none)
      = some (some ((19 : ℚ) / 10))
    ∧ (featuresSingle scenarioEvents "California" 12).map
        (fun F => F.magRollMean3.getD 12 none) = some none := by
  refine ⟨rfl, ?_, by decide⟩
  have h1 : (featuresSingle scenarioEvents "California" 12).map (fun F => F.mag.getD 9 none)
      = some (aggField RawEvent.mag scenarioEvents 10) := rfl
  have h3 : scenarioEvents.filter (fun x => x.time == (10 : ℕ))
      = [{ time := 10, place := "California", mag := (19 : ℚ)/10, depth := 1,
           latitude := 0, longitude := 0 }] := rfl
  rw [h1, aggField_singleton h3]

/-! ### Claim C6 -/

/-- C6 confirmed: `get_forecast` is exactly the assembled table filtered
to dates on or after `today - 7`, `forecast_earthquakes` is exactly the
assembled table filtered to dates on or after `today`, and for a fixed run
date every `forecast_earthquakes` row is a `get_forecast` row. -/
theorem c6_forecast_windows (events : List RawEvent) (today : ℕ) (model : Model) :
    getForecast events today model
        = (assemble events today model).filter (fun r => decide (today - 7 ≤ r.date))
    ∧ forecastEarthquakes events today model
        = (assemble events today model).filter (fun r => decide (today ≤ r.date))
    ∧ ∀ r, r ∈ forecastEarthquakes events today model →
        r ∈ getForecast events today model := by
  refine ⟨rfl, ?_, ?_⟩
  · show ((assemble events today model).filter
        (fun r => decide (today - 7 ≤ r.date))).filter (fun r => decide (today ≤ r.date)) = _
    rw [List.filter_filter]
    apply List.filter_congr
    intro r _
    by_cases hc : today ≤ r.date
    · have h7 : today - 7 ≤ r.date := le_trans (Nat.sub_le today 7) hc
      simp [hc, h7]
    · simp [hc]
  · intro r hr
    exact (List.mem_filter.mp hr).1

/-- Concrete event and model used by the C6 witness. -/
def c6Event : RawEvent :=
  { time := 7, place := "b, Alaska", mag := 4, depth := 9, latitude := 1, longitude := 1 }

/-- Constant model output used by the C6 witness. -/
def c6Model : Model := fun _ => List.replicate 11 ((1 : ℚ), (1 : ℚ))

/-- C6 witness: in a concrete run the first `forecast_earthquakes` row is
a `get_forecast` row. -/
theorem c6_witness :
    (forecastEarthquakes [c6Event] 8 c6Model).headD
        { date := 0, magnitude := none, magnitudeForecast := 0, depth := none,
          depthForecast := 0, region := "", latitude := none, longitude := none }
      ∈ getForecast [c6Event] 8 c6Model := by
  have hne : forecastEarthquakes [c6Event] 8 c6Model ≠ [] := by decide
  have hmem : (forecastEarthquakes [c6Event] 8 c6Model).headD
      { date := 0, magnitude := none, magnitudeForecast := 0, depth := none,
        depthForecast := 0, region := "", latitude := none, longitude := none }
      ∈ forecastEarthquakes [c6Event] 8 c6Model := by
    cases h : forecastEarthquakes [c6Event] 8 c6Model with
    | nil => exact absurd h hne
    | cons a l => simp [List.headD]
  exact (c6_forecast_windows [c6Event] 8 c6Model).2.2 _ hmem

/-! ### Claim C7 -/

/-- C7 confirmed (two-run noninterference): if two event tables contain
the same rows for region `R`, then `R` is whitelisted in one run exactly
when it is in the other, and `R`'s full feature slice (value columns, all
lag columns, all rolling columns) is identical in the two runs, in both
the all-regions and the single-region path — no lag or rolling feature of
one region reads another region's data. -/
theorem c7_noninterference (e1 e2 : List RawEvent) (today : ℕ) (R : String)
    (h : eventsFor R e1 = eventsFor R e2) :
    (R ∈ whitelist e1 ↔ R ∈ whitelist e2)
    ∧ regionFeaturesAll (eventsFor R e1) (minDayOf e1 R) today
        = regionFeaturesAll (eventsFor R e2) (minDayOf e2 R) today
    ∧ featuresSingle e1 R today = featuresSingle e2 R today := by
  refine ⟨?_, ?_, ?_⟩
  · simp only [mem_whitelist, ← eventsFor_ne_nil, h]
  · unfold minDayOf
    rw [h]
  · unfold featuresSingle
    rw [h]

/-- Events shared and varied by the C7 witness runs. -/
def c7EventCal : RawEvent :=
  { time := 3, place := "c, California", mag := 2, depth := 2, latitude := 2, longitude := 2 }

/-- First run's Alaska event for the C7 witness. -/
def c7EventOther1 : RawEvent :=
  { time := 3, place := "d, Alaska", mag := 1, depth := 1, latitude := 1, longitude := 1 }

/-- Second run's Alaska event (different magnitude and depth). -/
def c7EventOther2 : RawEvent :=
  { time := 3, place := "d, Alaska", mag := 6, depth := 6, latitude := 1, longitude := 1 }

/-- C7 witness: changing the other region's values leaves California's
whole feature slice unchanged in a concrete two-run comparison. -/
theorem c7_witness :
    regionFeaturesAll (eventsFor "California" [c7EventCal, c7EventOther1])
        (minDayOf [c7EventCal, c7EventOther1] "California") 5
      = regionFeaturesAll (eventsFor "California" [c7EventCal, c7EventOther2])
        (minDayOf [c7EventCal, c7EventOther2] "California") 5 :=
  (c7_noninterference [c7EventCal, c7EventOther1] [c7EventCal, c7EventOther2]
    5 "California" rfl).2.1

/-! ### Claim C8 -/

/-- C8 confirmed: every whitelisted region's slice of the dense grid is in
the `preprocess_data` output; its day index is exactly the contiguous
daily range from the region's earliest observed day through today (day at
position `p` is `start + p`, and a day is indexed iff it lies in the
interval), the extended index of `create_features` runs through
`today + 3` in both paths, and `start` is the region's earliest observed
event day. -/
theorem c8_days_contiguous (events : List RawEvent) (today : ℕ) (R : String)
    (hR : R ∈ whitelist events) :
    (R, preSeries (eventsFor R events) (minDayOf events R) today) ∈ preprocessAll events today
    ∧ (preSeries (eventsFor R events) (minDayOf events R) today).days
        = dateRange (minDayOf events R) today
    ∧ (∀ d, d ∈ (preSeries (eventsFor R events) (minDayOf events R) today).days
        ↔ minDayOf events R ≤ d ∧ d ≤ today)
    ∧ (∀ p, p < (preSeries (eventsFor R events) (minDayOf events R) today).days.length →
        (preSeries (eventsFor R events) (minDayOf events R) today).days.getD p 0
          = minDayOf events R + p)
    ∧ (∀ d, d ∈ (regionFeaturesAll (eventsFor R events) (minDayOf events R) today).days
        ↔ minDayOf events R ≤ d ∧ d ≤ today + 3)
    ∧ (∀ F, featuresSingle events R today = some F →
        ∀ d, d ∈ F.days ↔ minDayOf events R ≤ d ∧ d ≤ today + 3)
    ∧ (∃ e ∈ eventsFor R events, e.time = minDayOf events R)
    ∧ (∀ e ∈ eventsFor R events, minDayOf events R ≤ e.time) := by
  have hmin : minDay? (eventsFor R events) = some (minDayOf events R) :=
    minDay?_isSome_of_whitelist hR
  obtain ⟨hex, hlb⟩ := minDay?_spec hmin
  refine ⟨?_, rfl, ?_, ?_, ?_, ?_, hex, hlb⟩
  · exact List.mem_map.mpr ⟨R, hR, rfl⟩
  · intro d
    show d ∈ dateRange (minDayOf events R) today ↔ _
    exact mem_dateRange
  · intro p hp
    rw [show (preSeries (eventsFor R events) (minDayOf events R) today).days
        = dateRange (minDayOf events R) today from rfl, dateRange_length] at hp
    exact dateRange_getD hp
  · intro d
    rw [regionFeaturesAll_eq, mkFeatures_days]
    exact mem_dateRange
  · intro F hF d
    unfold featuresSingle at hF
    rw [hmin] at hF
    simp only [Option.map_some'] at hF
    have hFe : F = regionFeaturesSingle (eventsFor R events) (minDayOf events R) today := by
      injection hF with hF'
      exact hF'.symm
    subst hFe
    rw [regionFeaturesSingle_eq, mkFeatures_days]
    exact mem_dateRange

/-- Concrete event used by the C8 witness. -/
def c8Event : RawEvent :=
  { time := 1, place := "f, Nevada", mag := 1, depth := 1, latitude := 1, longitude := 1 }

/-- C8 witness: the contiguity characterization evaluated in a concrete
run (day 2 is indexed, and the grid start is an observed event day). -/
theorem c8_witness :
    (2 ∈ (preSeries (eventsFor "Nevada" [c8Event]) (minDayOf [c8Event] "Nevada") 2).days
      ↔ minDayOf [c8Event] "Nevada" ≤ 2 ∧ 2 ≤ 2)
    ∧ (∃ e ∈ eventsFor "Nevada" [c8Event], e.time = minDayOf [c8Event] "Nevada") := by
  have h := c8_days_contiguous [c8Event] 2 "Nevada" (by decide)
  exact ⟨h.2.2.1 2, h.2.2.2.2.2.2.1⟩

/-! ### Claim C9 -/

/-- C9 confirmed: the full pipeline (fetch-frozen events, preprocess,
feature building, model inference, windowing) is a pure function of the
frozen event table, the run date and the model artifact: two executions on
equal inputs produce identical forecast tables, for both windowed views.
The embedding threads no state, mirroring the source's lack of shared
mutable state across the pipeline stages. -/
theorem c9_deterministic (e1 e2 : List RawEvent) (t1 t2 : ℕ) (m1 m2 : Model)
    (he : e1 = e2) (ht : t1 = t2) (hm : m1 = m2) :
    getForecast e1 t1 m1 = getForecast e2 t2 m2
    ∧ forecastEarthquakes e1 t1 m1 = forecastEarthquakes e2 t2 m2 := by
  subst he
  subst ht
  subst hm
  exact ⟨rfl, rfl⟩

/-- Empty model used by the C9 witness. -/
def c9Model : Model := fun _ => []

/-- C9 witness: determinism instantiated on a concrete run. -/
theorem c9_witness :
    getForecast [] 3 c9Model = getForecast [] 3 c9Model :=
  (c9_deterministic [] [] 3 3 c9Model c9Model rfl rfl rfl).1

/-! ### Claim C10 -/

/-- C10 confirmed: when a single target region is requested and no event
canonicalizes to it, `preprocess_data` fails (the embedding's `none`,
where the source builds `pd.date_range` from an undefined `NaT` minimum
and raises) instead of returning an empty grid; and whenever any event
canonicalizes to the requested region the single-region path succeeds,
with no whitelist membership check on the requested region (the second
run's region is arbitrary). -/
theorem c10_empty_region (e1 e2 : List RawEvent) (R1 R2 : String) (t1 t2 : ℕ)
    (h1 : ∀ e ∈ e1, canonicalize e.place ≠ R1)
    (h2 : ∃ e ∈ e2, canonicalize e.place = R2) :
    preprocessSingle e1 R1 t1 = none
    ∧ (preprocessSingle e2 R2 t2).isSome = true
    ∧ (featuresSingle e2 R2 t2).isSome = true := by
  have hnil : eventsFor R1 e1 = [] := by
    unfold eventsFor
    rw [List.filter_eq_nil_iff]
    intro e he
    simp only [beq_iff_eq]
    exact h1 e he
  have hne : eventsFor R2 e2 ≠ [] := eventsFor_ne_nil.mpr h2
  refine ⟨?_, ?_, ?_⟩
  · unfold preprocessSingle
    rw [hnil]
    rfl
  · unfold preprocessSingle
    cases hm : minDay? (eventsFor R2 e2) with
    | none => exact absurd (minDay?_eq_none.mp hm) hne
    | some s => simp [hm]
  · unfold featuresSingle
    cases hm : minDay? (eventsFor R2 e2) with
    | none => exact absurd (minDay?_eq_none.mp hm) hne
    | some s => simp [hm]

/-- Concrete event whose canonical region is outside the whitelist, used
by the C10 witness. -/
def c10Event : RawEvent :=
  { time := 2, place := "q, Atlantis", mag := 1, depth := 1, latitude := 1, longitude := 1 }

/-- C10 witness: requesting "California" over an event table with no
California events fails, while requesting "Atlantis" — a region that is
NOT in the hardcoded whitelist superset — succeeds because the
single-region path never consults the whitelist. -/
theorem c10_witness :
    preprocessSingle [c10Event] "California" 4 = none
    ∧ (preprocessSingle [c10Event] "Atlantis" 4).isSome = true
    ∧ "Atlantis" ∉ hardcodedRegions := by
  have h := c10_empty_region [c10Event] [c10Event] "California" "Atlantis" 4 4
    (by decide) ⟨c10Event, by decide, by decide⟩
  exact ⟨h.1, h.2.1, by decide⟩
